import Mathlib

/-!
Verification of the terminal-flow-bid strategy engines against their
natural-language specification.

The development shallowly embeds three engines of the repository:

* the exit/tranche liquidation engine (`src/exit-strategy.ts`);
* the auction bid strategy engine, `waiting → watching → bidding` revision
  (the `strategy.ts` revision with phases, found in the repository sources);
* the generic trading engine with risk limits (`src/trading/engine.ts`).

JavaScript numbers are embedded as exact rationals (`ℚ`); raw on-chain
bigint token amounts as `ℕ`.  Timer scheduling, logging, Telegram
notifications and transaction hashes are side effects without influence on
the state fields the claims speak about and are not represented.  External
calls (price feeds, on-chain balance reads, swap submission, bid
submission) are modelled as explicit observation inputs to each tick.
-/

/-! ## Exit strategy engine (src/exit-strategy.ts) -/

/-- Status of one tranche (`ExecutedTranche.status` in exit-strategy.ts). -/
inductive TrancheStatus where
  | pending
  | executed
  | skipped
deriving DecidableEq, Repr

/-- One tranche of the exit ladder (`ExecutedTranche` in exit-strategy.ts).
`pctToSell` is an integer 0–100, `targetMultiple` the trigger multiple of the
entry FDV.  `amountSold` records the raw token amount sold when the tranche
executed (the source stores a formatted string; we keep the raw amount). -/
structure ExecutedTranche where
  pctToSell : ℕ
  targetMultiple : ℚ
  status : TrancheStatus
  amountSold : Option ℕ := none
deriving DecidableEq, Repr

/-- Result of one `swapExactInputSingle` sell attempt: either a confirmed swap
with the USDC output amount (raw, 6 decimals) together with the on-chain token
balance read back after the sell, or a thrown executor error. -/
inductive SwapOutcome where
  | success (amountOut : ℕ) (newBalance : ℕ)
  | failure
deriving DecidableEq, Repr

/-- Terminal/live status of an exit strategy.  The exit-strategy.ts revision
included under src/ uses `running | done | failed | cancelled`; the later
revision referenced by server.ts (stop-loss aware) additionally has the
terminal status `stopped` described by the spec. -/
inductive ExitStatus where
  | running
  | done
  | failed
  | cancelled
  | stopped
deriving DecidableEq, Repr

/-- `ExitStrategyState` of exit-strategy.ts.  String presentation fields
(`auctionAddress`, `tokenAddress`, profile name, log) are omitted; they do not
influence the engine.  `stopLossMultiple` is absent from the revision included
under src/ (it is `none` there); server.ts passes it to the later revision. -/
structure ExitStrategyState where
  tokenDecimals : ℕ
  totalSupply : ℕ
  entryFdv : ℚ
  initialBalance : ℕ
  currentBalance : ℕ
  currentFdv : ℚ
  currentMultiple : ℚ
  tranches : List ExecutedTranche
  totalUsdcRealized : ℚ
  status : ExitStatus
  stopLossMultiple : Option ℚ := none

/-- A record of one executed tranche sell, used to audit the scan loop:
`index` is the position of the tranche in the declared list, `balanceBefore`
the balance the engine held when the tranche triggered, `amountSold` the raw
amount handed to the swap, `balanceAfter` the on-chain balance read back after
the confirmed sell, `usdcReceived` the USDC proceeds. -/
structure SellEvent where
  index : ℕ
  pctToSell : ℕ
  balanceBefore : ℕ
  amountSold : ℕ
  balanceAfter : ℕ
  usdcReceived : ℚ
deriving DecidableEq, Repr

/-- Result of one pass of the tranche scan loop. -/
structure ScanResult where
  tranches : List ExecutedTranche
  balance : ℕ
  realized : ℚ
  nextOut : ℕ
  events : List SellEvent
deriving Repr

/-- The tranche scan loop of `pollAndExecute` (exit-strategy.ts lines
213–272): tranches are visited in declared order; non-pending tranches are
skipped; a pending tranche whose target multiple is not reached is left
alone; a triggered tranche with zero balance, or whose computed sell amount
`balance * pct / 100` (bigint division) is zero, is marked `skipped`;
otherwise the sell is attempted — on success the tranche becomes `executed`,
the realized total grows by `amountOut / 1e6`, and the balance is refreshed
from chain; on an executor error nothing is recorded and the tranche stays
`pending`.  `outs k` is the outcome of the k-th swap attempted this tick,
`idx` the index of the head tranche in the declared list. -/
def scanTranches (mult : ℚ) (outs : ℕ → SwapOutcome) :
    List ExecutedTranche → ℕ → ℚ → ℕ → ℕ → ScanResult
  | [], bal, real, k, _ => ⟨[], bal, real, k, []⟩
  | t :: rest, bal, real, k, idx =>
    if t.status ≠ TrancheStatus.pending then
      let r := scanTranches mult outs rest bal real k (idx + 1)
      { r with tranches := t :: r.tranches }
    else if mult < t.targetMultiple then
      let r := scanTranches mult outs rest bal real k (idx + 1)
      { r with tranches := t :: r.tranches }
    else if bal = 0 then
      let r := scanTranches mult outs rest bal real k (idx + 1)
      { r with tranches := { t with status := TrancheStatus.skipped } :: r.tranches }
    else
      let sellAmount := bal * t.pctToSell / 100
      if sellAmount = 0 then
        let r := scanTranches mult outs rest bal real k (idx + 1)
        { r with tranches := { t with status := TrancheStatus.skipped } :: r.tranches }
      else
        match outs k with
        | SwapOutcome.failure =>
          let r := scanTranches mult outs rest bal real (k + 1) (idx + 1)
          { r with tranches := t :: r.tranches }
        | SwapOutcome.success amountOut newBal =>
          let usdc := (amountOut : ℚ) / 1000000
          let r := scanTranches mult outs rest newBal (real + usdc) (k + 1) (idx + 1)
          { r with
              tranches :=
                { t with status := TrancheStatus.executed, amountSold := some sellAmount }
                  :: r.tranches,
              events := ⟨idx, t.pctToSell, bal, sellAmount, newBal, usdc⟩ :: r.events }

/-- The external observations consumed by one exit-engine tick: token price
(USDC per token), the wallet's on-chain token balance, and the outcomes of
the swaps attempted during the tranche scan. -/
structure ExitTickObs where
  price : ℚ
  onChainBalance : ℕ
  outs : ℕ → SwapOutcome

/-- The current valuation multiple derived at the top of a tick
(exit-strategy.ts lines 197–199): `currentFdv = price * totalSupply/10^dec`,
`currentMultiple = currentFdv / entryFdv` when `entryFdv > 0`, else 0. -/
def currentMultipleOf (s : ExitStrategyState) (price : ℚ) : ℚ :=
  let supplyHuman : ℚ := (s.totalSupply : ℚ) / 10 ^ s.tokenDecimals
  let fdv := price * supplyHuman
  if 0 < s.entryFdv then fdv / s.entryFdv else 0

/-- One iteration of the `setInterval` body of `pollAndExecute`
(exit-strategy.ts lines 183–287), for the revision included under src/ (no
stop-loss): when not `running` the timer is torn down and the state is left
as is; otherwise refresh FDV, multiple and on-chain balance, run the tranche
scan, and mark the strategy `done` once no tranche is `pending`. -/
def pollTick (s : ExitStrategyState) (obs : ExitTickObs) : ExitStrategyState :=
  if s.status ≠ ExitStatus.running then s
  else
    let supplyHuman : ℚ := (s.totalSupply : ℚ) / 10 ^ s.tokenDecimals
    let fdv := obs.price * supplyHuman
    let mult := if 0 < s.entryFdv then fdv / s.entryFdv else 0
    let r := scanTranches mult obs.outs s.tranches obs.onChainBalance s.totalUsdcRealized 0 0
    let s' := { s with
      currentFdv := fdv, currentMultiple := mult, currentBalance := r.balance,
      tranches := r.tranches, totalUsdcRealized := r.realized }
    if r.tranches.all (fun t => t.status ≠ TrancheStatus.pending) then
      { s' with status := ExitStatus.done }
    else s'

/-- Iterated polling: one `pollTick` per observation, in order. -/
def pollTicks (s : ExitStrategyState) (obsList : List ExitTickObs) : ExitStrategyState :=
  obsList.foldl pollTick s

/-- Modelled from the spec: the stop-loss aware revision of the exit tick.
server.ts passes `stopLossMultiple` to `runExitStrategy` and calls
`setExitStrategies`/`resumeExitStrategies`, but the exit-strategy.ts revision
implementing them is not among the included sources; per the spec (§4.2),
that revision checks the stop-loss before the tranche scan on every tick:
"if a stop-loss multiple is configured and the current multiple has fallen
below it, sell the entire current balance immediately, mark every
still-pending tranche `skipped`, and end in terminal status `stopped`".
The second component reports the raw amount liquidated by the stop-loss
(none when the stop-loss did not fire). -/
def pollTickSL (s : ExitStrategyState) (obs : ExitTickObs) :
    ExitStrategyState × Option ℕ :=
  if s.status ≠ ExitStatus.running then (s, none)
  else
    let mult := currentMultipleOf s obs.price
    let fdv := obs.price * ((s.totalSupply : ℚ) / 10 ^ s.tokenDecimals)
    let bal := obs.onChainBalance
    match s.stopLossMultiple with
    | some sl =>
      if mult < sl then
        let proceeds : ℚ :=
          match obs.outs 0 with
          | SwapOutcome.success amountOut _ => (amountOut : ℚ) / 1000000
          | SwapOutcome.failure => 0
        ({ s with
            currentFdv := fdv, currentMultiple := mult, currentBalance := 0,
            tranches := s.tranches.map fun t =>
              if t.status = TrancheStatus.pending
              then { t with status := TrancheStatus.skipped } else t,
            totalUsdcRealized := s.totalUsdcRealized + proceeds,
            status := ExitStatus.stopped }, some bal)
      else (pollTick s obs, none)
    | none => (pollTick s obs, none)

/-! ## Bid strategy engine (the `waiting → watching → bidding` revision of strategy.ts) -/

/-- Bid strategy status (`StrategyState.status`). -/
inductive BidStatus where
  | waiting
  | watching
  | bidding
  | done
  | failed
deriving DecidableEq, Repr

/-- `StrategyState` of the phased strategy.ts revision.  The raw
`clearingPrice` string, the exit profile, stop-loss pass-through and the log
are omitted (they do not influence the bidding arithmetic). -/
structure StrategyState where
  auctionAddress : String
  status : BidStatus
  amount : ℚ
  minFdvUsd : ℚ
  maxFdvUsd : ℚ
  currentFdv : ℚ
  impliedFdv : ℚ
  bidsPlaced : ℕ
  maxBidAttempts : ℕ
  lastBidFdv : Option ℚ
  totalBids : ℕ
  fdvHistory : List ℚ

/-- Classified result of one `submitBid` call, as recognised by `placeBid`'s
error matching: a confirmed bid (with the contract-quantized FDV actually
encoded), a `BidMustBeAboveClearingPrice` rejection, an `AuctionEnded`
rejection, or any other failure. -/
inductive BidOutcome where
  | confirmed (actualFdv : ℚ)
  | priceTooLow
  | auctionEnded
  | otherFailure
deriving Repr

/-- One observation consumed by a bidding-loop iteration: the current block
number and, when the auction reports a positive Q96 clearing price, the
already-rounded implied FDV `Math.round(q96ToFdv(clearingQ96, auctionInfo))`
(`none` when no clearing price exists). -/
structure BidObs where
  blockNumber : ℕ
  implied : Option ℚ
deriving Repr

/-- `placeBid` of the phased strategy.ts revision (lines 572–603): on a
confirmed bid, count it, record the actual FDV and lift `currentFdv` to the
actual FDV if the contract rounded it up; on a `BidMustBeAboveClearingPrice`
rejection, bump `currentFdv` by 20% (ceiling), capped at `maxFdvUsd`; on
`AuctionEnded`, mark the strategy `done`; otherwise leave the state alone.
Returns the updated state and whether the bid was confirmed. -/
def placeBid (s : StrategyState) (out : BidOutcome) : StrategyState × Bool :=
  match out with
  | BidOutcome.confirmed actual =>
    let s1 := { s with bidsPlaced := s.bidsPlaced + 1, lastBidFdv := some actual }
    (if s1.currentFdv < actual then { s1 with currentFdv := actual } else s1, true)
  | BidOutcome.priceTooLow =>
    ({ s with currentFdv := min ((⌈s.currentFdv * (6 / 5)⌉ : ℤ) : ℚ) s.maxFdvUsd }, false)
  | BidOutcome.auctionEnded =>
    ({ s with status := BidStatus.done }, false)
  | BidOutcome.otherFailure => (s, false)

/-- The implied-FDV refresh at the top of a bidding iteration (lines
503–506): when the auction reports a clearing price, store its implied FDV. -/
def updateImplied (s : StrategyState) (obs : BidObs) : StrategyState :=
  match obs.implied with
  | some v => { s with impliedFdv := v }
  | none => s

/-- The per-attempt target computation of the bidding phase (lines 509–516):
bid 15% above the observed clearing FDV capped at `maxFdvUsd` when clearing
data exists, else 5% above the floor (`minFdvUsd`). -/
def computeTargetFdv (s : StrategyState) : ℚ :=
  if 0 < s.impliedFdv then
    min ((⌈s.impliedFdv * (23 / 20)⌉ : ℤ) : ℚ) s.maxFdvUsd
  else ((⌈s.minFdvUsd * (21 / 20)⌉ : ℤ) : ℚ)

/-- One attempt's state preparation (lines 503–517): refresh the implied FDV
from the observation, compute the target, and store it in `currentFdv`. -/
def bidAttemptState (s : StrategyState) (obs : BidObs) : StrategyState :=
  { updateImplied s obs with currentFdv := computeTargetFdv (updateImplied s obs) }

/-- The bidding retry loop of the phased strategy.ts revision (lines
485–556), with fuel standing for the remaining bid attempts
(`bidAttempts < maxBidAttempts`) and `inputs i` the observation and bid
outcome of the i-th iteration.  Each iteration: stop when no longer
`bidding`; mark `done` when the auction's end block is reached; otherwise
prepare the attempt (`bidAttemptState`), attempt the bid, stop on a
confirmed bid (status `done`) or on `AuctionEnded` (status set by
`placeBid`), and retry otherwise.  Returns the final state and the list of
targeted FDVs, one per attempt. -/
def biddingAux (endBlock : ℕ) (inputs : ℕ → BidObs × BidOutcome) :
    ℕ → ℕ → StrategyState → StrategyState × List ℚ
  | 0, _, s => (s, [])
  | fuel + 1, i, s =>
    if s.status ≠ BidStatus.bidding then (s, [])
    else if endBlock ≤ (inputs i).1.blockNumber then
      ({ s with status := BidStatus.done }, [])
    else if (placeBid (bidAttemptState s (inputs i).1) (inputs i).2).2 then
      ({ (placeBid (bidAttemptState s (inputs i).1) (inputs i).2).1 with
          status := BidStatus.done },
       [computeTargetFdv (updateImplied s (inputs i).1)])
    else if (placeBid (bidAttemptState s (inputs i).1) (inputs i).2).1.status
        = BidStatus.done then
      ((placeBid (bidAttemptState s (inputs i).1) (inputs i).2).1,
       [computeTargetFdv (updateImplied s (inputs i).1)])
    else
      ((biddingAux endBlock inputs fuel (i + 1)
          (placeBid (bidAttemptState s (inputs i).1) (inputs i).2).1).1,
       computeTargetFdv (updateImplied s (inputs i).1) ::
         (biddingAux endBlock inputs fuel (i + 1)
           (placeBid (bidAttemptState s (inputs i).1) (inputs i).2).1).2)

/-- Phase 3 of `runStrategy` (lines 482–563): run the bounded bidding loop
and, if the attempts were exhausted while still `bidding`, end in `done`
("bid attempts exhausted"). -/
def biddingPhase (endBlock : ℕ) (inputs : ℕ → BidObs × BidOutcome)
    (s : StrategyState) : StrategyState × List ℚ :=
  let r := biddingAux endBlock inputs s.maxBidAttempts 0 s
  (if r.1.status = BidStatus.bidding then { r.1 with status := BidStatus.done } else r.1,
   r.2)

/-- The state a freshly created strategy carries into the `bidding` phase
when the auction had no bids while it watched: `runStrategy` creates the
state with `currentFdv := minFdvUsd`, `impliedFdv := 0`, `maxBidAttempts := 2`
(lines 365–382); the watching phase only updates `impliedFdv` when a positive
clearing price appears, and sets `status := bidding` at the bid window. -/
def enterBiddingNoBids (amount minFdv maxFdv : ℚ) : StrategyState :=
  { auctionAddress := "0xauction"
    status := BidStatus.bidding
    amount := amount
    minFdvUsd := minFdv
    maxFdvUsd := maxFdv
    currentFdv := minFdv
    impliedFdv := 0
    bidsPlaced := 0
    maxBidAttempts := 2
    lastBidFdv := none
    totalBids := 0
    fdvHistory := [] }

/-- Observation/outcome stream of claim C4's scenario: the auction never
reports a clearing price (no bids) and every submitted bid is rejected as
`BidMustBeAboveClearingPrice`. -/
def noClearingAllRejected : ℕ → BidObs × BidOutcome :=
  fun _ => (⟨0, none⟩, BidOutcome.priceTooLow)

/-- Observation/outcome stream for the C5 counterexample: the first attempt
sees no clearing price and is rejected as price-too-low; from the second
attempt on, the auction reports a clearing price whose implied FDV is
$1,000. -/
def lateSmallClearing : ℕ → BidObs × BidOutcome :=
  fun i => if i = 0 then (⟨0, none⟩, BidOutcome.priceTooLow)
           else (⟨0, some 1000⟩, BidOutcome.priceTooLow)

/-! ## Trading engine (src/trading/engine.ts, src/trading/types.ts) -/

/-- `StrategyStatus` of trading/types.ts. -/
inductive TrStatus where
  | running
  | paused
  | done
  | failed
deriving DecidableEq, Repr

/-- `StrategyType` of trading/types.ts. -/
inductive StrategyType where
  | dca
  | twap
  | meanReversion
deriving DecidableEq, Repr

/-- Trade side. -/
inductive Side where
  | buy
  | sell
deriving DecidableEq, Repr

/-- A trade signal returned by an evaluator (`Signal` in engine.ts). -/
structure Signal where
  side : Side
  amountUsdc : ℚ
deriving DecidableEq, Repr

/-- `Position` of trading/types.ts. -/
structure Position where
  tokenBalance : ℚ
  avgEntryPrice : ℚ
  totalInvested : ℚ
  totalRealized : ℚ
deriving DecidableEq, Repr

/-- Realized/unrealized PnL pair. -/
structure Pnl where
  realized : ℚ
  unrealized : ℚ
deriving DecidableEq, Repr

/-- `RiskLimits` of trading/types.ts. -/
structure RiskLimits where
  maxPositionUsdc : ℚ
  stopLossPercent : ℚ
  maxDrawdownPercent : ℚ
deriving DecidableEq, Repr

/-- One immutable trade record (`Trade` of trading/types.ts; timestamp and
transaction hash omitted). -/
structure Trade where
  side : Side
  amountUsdc : ℚ
  amountToken : ℚ
  price : ℚ
deriving DecidableEq, Repr

/-- `TradingStrategyState` of trading/types.ts.  The zero-padded string id is
embedded as its numeric value; token address/symbol, the synced price
history, the opaque evaluator parameter bag and the log are omitted — none
of them is read by the engine paths the claims are about (the evaluator,
which owns `params`, is abstracted as a function below). -/
structure TradingStrategyState where
  id : ℕ
  type : StrategyType
  status : TrStatus
  tokenDecimals : ℕ
  position : Position
  pnl : Pnl
  riskLimits : RiskLimits
  trades : List Trade
  totalGasCostEth : ℚ
deriving DecidableEq, Repr

/-- Result of one `swapExactInputSingle` call made by the trading engine:
the raw output amount and the gas cost, or a thrown error. -/
inductive TradeOutcome where
  | success (amountOut : ℕ) (gasCostEth : ℚ)
  | failure
deriving DecidableEq, Repr

/-- An evaluator (`EvaluateFn` in engine.ts), abstracted as a function of the
strategy state and the current price (the indicator bundle the concrete
evaluators read is derived from these and the price tracker). -/
abbrev EvaluateFn := TradingStrategyState → ℚ → Option Signal

/-- `MAX_SINGLE_TRADE_USDC` (engine.ts line 24). -/
def maxSingleTradeUsdc : ℚ := 500

/-- `executeBuy` (engine.ts lines 284–361): refuse when the available USDC
balance is short; on a confirmed swap, credit the received tokens, blend the
volume-weighted average entry price, add the spent USDC to `totalInvested`,
and append a buy trade record; on a swap error, leave the state unchanged.
`usdcAvailable` is the wallet's USDC balance read at the top of the call. -/
def executeBuy (s : TradingStrategyState) (amountUsdc currentPrice usdcAvailable : ℚ)
    (out : TradeOutcome) : TradingStrategyState :=
  if usdcAvailable < amountUsdc then s
  else
    match out with
    | TradeOutcome.failure => s
    | TradeOutcome.success amountOut gas =>
      let tokenReceived := (amountOut : ℚ) / 10 ^ s.tokenDecimals
      let effectivePrice := amountUsdc / tokenReceived
      let oldBalance := s.position.tokenBalance
      let oldAvg := s.position.avgEntryPrice
      let newBalance := oldBalance + tokenReceived
      { s with
          position := { s.position with
            tokenBalance := newBalance
            avgEntryPrice := (oldAvg * oldBalance + effectivePrice * tokenReceived) / newBalance
            totalInvested := s.position.totalInvested + amountUsdc }
          trades := s.trades ++ [⟨Side.buy, amountUsdc, tokenReceived, effectivePrice⟩]
          totalGasCostEth := s.totalGasCostEth + gas }

/-- `executeSell` (engine.ts lines 363–433): on a confirmed swap, debit the
sold tokens clamping the balance at zero (line 391), credit the USDC
proceeds, recompute realized PnL, and append a sell trade record; on a swap
error, leave the state unchanged (the sell is considered not taken). -/
def executeSell (s : TradingStrategyState) (tokenAmount currentPrice : ℚ)
    (out : TradeOutcome) : TradingStrategyState :=
  match out with
  | TradeOutcome.failure => s
  | TradeOutcome.success amountOut gas =>
    let usdcReceived := (amountOut : ℚ) / 1000000
    let effectivePrice := usdcReceived / tokenAmount
    let bal1 := s.position.tokenBalance - tokenAmount
    let bal2 := if bal1 < 0 then 0 else bal1
    let newRealizedTotal := s.position.totalRealized + usdcReceived
    { s with
        position := { s.position with tokenBalance := bal2, totalRealized := newRealizedTotal }
        pnl := { s.pnl with
          realized := newRealizedTotal - s.position.totalInvested + bal2 * s.position.avgEntryPrice }
        trades := s.trades ++ [⟨Side.sell, usdcReceived, tokenAmount, effectivePrice⟩]
        totalGasCostEth := s.totalGasCostEth + gas }

/-- The stop-loss guard of the trading tick (engine.ts lines 211–217),
expressed on the pre-tick state: tokens are held, an average entry price
exists, a stop-loss percentage is configured, and the price has fallen below
average entry times (1 − stopLossPercent/100). -/
def stopLossFires (s : TradingStrategyState) (p : ℚ) : Prop :=
  0 < s.position.tokenBalance ∧ 0 < s.position.avgEntryPrice ∧
  0 < s.riskLimits.stopLossPercent ∧
  p < s.position.avgEntryPrice * (1 - s.riskLimits.stopLossPercent / 100)

instance (s : TradingStrategyState) (p : ℚ) : Decidable (stopLossFires s p) := by
  unfold stopLossFires; infer_instance

/-- The unrealized PnL the tick computes before the risk checks (engine.ts
lines 204–205). -/
def unrealizedAt (s : TradingStrategyState) (p : ℚ) : ℚ :=
  s.position.tokenBalance * p - s.position.totalInvested + s.position.totalRealized

/-- The max-drawdown guard of the trading tick (engine.ts lines 232–235),
expressed on the pre-tick state: a drawdown limit is configured, capital is
invested, and the negative total return as a percentage of invested capital
exceeds the limit. -/
def drawdownFires (s : TradingStrategyState) (p : ℚ) : Prop :=
  0 < s.riskLimits.maxDrawdownPercent ∧ 0 < s.position.totalInvested ∧
  s.riskLimits.maxDrawdownPercent
    < -(s.pnl.realized + unrealizedAt s p) / s.position.totalInvested * 100

instance (s : TradingStrategyState) (p : ℚ) : Decidable (drawdownFires s p) := by
  unfold drawdownFires; infer_instance

/-- The state with unrealized PnL refreshed, as the tick computes it before
the risk checks (engine.ts lines 204–205). -/
def withUnrealized (s : TradingStrategyState) (p : ℚ) : TradingStrategyState :=
  { s with pnl := { s.pnl with unrealized := unrealizedAt s p } }

/-- The external inputs consumed by one trading-engine tick: the price
tracker's latest price (none while warming up), the wallet's USDC balance,
and the outcome of the swap should a buy or sell be attempted. -/
structure TickInput where
  price : Option ℚ
  usdcAvailable : ℚ
  buyOutcome : TradeOutcome
  sellOutcome : TradeOutcome

/-- `tick` (engine.ts lines 192–280): skip when no price is known yet;
refresh unrealized PnL; evaluate the risk limits in priority order —
stop-loss (sell the whole position, status `done`) then max drawdown
(status `paused`, no trade) — and only when neither fires consult the
evaluator, cap its signal at `maxSingleTradeUsdc`, suppress buys at the
position ceiling, and execute the trade.  The boolean reports whether the
evaluator was consulted this tick. -/
def tick (s₀ : TradingStrategyState) (evaluate : EvaluateFn) (inp : TickInput) :
    TradingStrategyState × Bool :=
  match inp.price with
  | none => (s₀, false)
  | some currentPrice =>
    if stopLossFires s₀ currentPrice then
      ({ executeSell (withUnrealized s₀ currentPrice)
            s₀.position.tokenBalance currentPrice inp.sellOutcome with
          status := TrStatus.done }, false)
    else if drawdownFires s₀ currentPrice then
      ({ withUnrealized s₀ currentPrice with status := TrStatus.paused }, false)
    else
      match evaluate (withUnrealized s₀ currentPrice) currentPrice with
      | none => (withUnrealized s₀ currentPrice, true)
      | some signal =>
        if signal.side = Side.buy ∧ 0 < s₀.riskLimits.maxPositionUsdc ∧
            s₀.riskLimits.maxPositionUsdc ≤ s₀.position.tokenBalance * currentPrice then
          (withUnrealized s₀ currentPrice, true)
        else if signal.side = Side.buy then
          (executeBuy (withUnrealized s₀ currentPrice)
            (min signal.amountUsdc maxSingleTradeUsdc) currentPrice
            inp.usdcAvailable inp.buyOutcome, true)
        else if 0 < min (min signal.amountUsdc maxSingleTradeUsdc / currentPrice)
            s₀.position.tokenBalance then
          (executeSell (withUnrealized s₀ currentPrice)
            (min (min signal.amountUsdc maxSingleTradeUsdc / currentPrice)
              s₀.position.tokenBalance)
            currentPrice inp.sellOutcome, true)
        else (withUnrealized s₀ currentPrice, true)

/-- One firing of the `setInterval` body installed by `startStrategyLoop`
(engine.ts lines 163–175): the tick body runs only while the strategy is
`running`; a `paused` strategy keeps its timer but does nothing, any other
status tears the timer down — in both cases the state is untouched and the
evaluator is not consulted. -/
def strategyLoopTick (s : TradingStrategyState) (evaluate : EvaluateFn)
    (inp : TickInput) : TradingStrategyState × Bool :=
  if s.status ≠ TrStatus.running then (s, false) else tick s evaluate inp

/-- `sellStrategyPosition` (engine.ts lines 436–457): refuse without a
position or with a percentage outside 1–100; sell `balance * pct/100` at the
tracked price (falling back to the average entry price), and mark the
strategy `done` after a 100% sell. -/
def sellStrategyPosition (s : TradingStrategyState) (pct : ℚ)
    (trackedPrice : Option ℚ) (out : TradeOutcome) : TradingStrategyState :=
  if s.position.tokenBalance ≤ 0 then s
  else if pct ≤ 0 ∨ 100 < pct then s
  else if pct = 100 ∧
      ((executeSell s (s.position.tokenBalance * (pct / 100))
          (trackedPrice.getD s.position.avgEntryPrice) out).status = TrStatus.running ∨
        (executeSell s (s.position.tokenBalance * (pct / 100))
          (trackedPrice.getD s.position.avgEntryPrice) out).status = TrStatus.paused) then
    { executeSell s (s.position.tokenBalance * (pct / 100))
        (trackedPrice.getD s.position.avgEntryPrice) out with status := TrStatus.done }
  else
    executeSell s (s.position.tokenBalance * (pct / 100))
      (trackedPrice.getD s.position.avgEntryPrice) out

/-- One position-affecting operation of the trading engine: an engine tick
(which may issue a signal buy, a signal sell or a stop-loss sell), a manual
percentage sell, or a direct `executeBuy`/`executeSell` call. -/
inductive TradeOp where
  | tickOp (evaluate : EvaluateFn) (inp : TickInput)
  | manualSell (pct : ℚ) (trackedPrice : Option ℚ) (out : TradeOutcome)
  | buyOp (amountUsdc currentPrice usdcAvailable : ℚ) (out : TradeOutcome)
  | sellOp (tokenAmount currentPrice : ℚ) (out : TradeOutcome)

/-- Apply one operation to a strategy state. -/
def applyOp (s : TradingStrategyState) : TradeOp → TradingStrategyState
  | TradeOp.tickOp ev inp => (strategyLoopTick s ev inp).1
  | TradeOp.manualSell pct p out => sellStrategyPosition s pct p out
  | TradeOp.buyOp a p avail out => executeBuy s a p avail out
  | TradeOp.sellOp amt p out => executeSell s amt p out

/-- Apply a sequence of operations in order. -/
def applyOps (s : TradingStrategyState) (ops : List TradeOp) : TradingStrategyState :=
  ops.foldl applyOp s

/-! ## Persistence restore path (server.ts boot, engine.ts, strategy.ts) -/

/-- JS `Map.set` on an association list: replacing the value of an existing
key keeps its position, a new key is appended. -/
def mapSet {κ α : Type} [DecidableEq κ] (key : κ) (v : α) :
    List (κ × α) → List (κ × α)
  | [] => [(key, v)]
  | (k, w) :: rest => if k = key then (key, v) :: rest else (k, w) :: mapSet key v rest

/-- `setStrategies` of the phased strategy.ts revision (restore path): each
persisted bid strategy is put back into the in-memory map, keyed by auction
address.  Nothing else happens — no timer is armed, no bid is submitted. -/
def setStrategies (m : List (String × StrategyState)) (states : List StrategyState) :
    List (String × StrategyState) :=
  states.foldl (fun acc s => mapSet s.auctionAddress s acc) m

/-- `setTradingStrategies` (engine.ts lines 96–105): repopulate the trading
map keyed by id.  (The source also advances the id counter; the counter does
not interact with re-arming.) -/
def setTradingStrategies (m : List (ℕ × TradingStrategyState))
    (states : List TradingStrategyState) : List (ℕ × TradingStrategyState) :=
  states.foldl (fun acc s => mapSet s.id s acc) m

/-- An action taken by the boot-time restore path.  `armTimer id` stands for
`startStrategyLoop` being called for the trading strategy `id` (the call
installs a timer and starts price tracking — observation only);
`externalBid`/`externalTrade` stand for a bid submission or a swap.  The
embedded restore functions emit an action wherever the source calls the
corresponding function. -/
inductive RestoreAction where
  | armTimer (id : ℕ)
  | externalBid
  | externalTrade
deriving DecidableEq, Repr

/-- `resumeTradingStrategies` (engine.ts lines 107–120): walk the restored
map in order and call `startStrategyLoop` exactly for the entries whose
status is `running` and whose strategy type has a registered evaluator. -/
def resumeTradingStrategies (evaluators : StrategyType → Option EvaluateFn)
    (m : List (ℕ × TradingStrategyState)) : List RestoreAction :=
  match m with
  | [] => []
  | e :: rest =>
    if e.2.status = TrStatus.running ∧ (evaluators e.2.type).isSome then
      RestoreAction.armTimer e.2.id :: resumeTradingStrategies evaluators rest
    else resumeTradingStrategies evaluators rest

/-- The boot-time restore sequence of server.ts (lines 733–748 plus the
`resumeTradingStrategies` entry point of engine.ts): repopulate the bid map
via `setStrategies`, repopulate the trading map via `setTradingStrategies`,
and re-arm tick loops via `resumeTradingStrategies`.  Returns both restored
maps and the list of actions the restore performed. -/
def restoreBoot (bidStates : List StrategyState)
    (tradingStates : List TradingStrategyState)
    (evaluators : StrategyType → Option EvaluateFn) :
    List (String × StrategyState) × List (ℕ × TradingStrategyState) × List RestoreAction :=
  let bidMap := setStrategies [] bidStates
  let tradingMap := setTradingStrategies [] tradingStates
  (bidMap, tradingMap, resumeTradingStrategies evaluators tradingMap)

/-! ## Derived predicates and concrete fixtures -/

/-- How one pass of the tranche scan may change a single tranche:
the configuration (`pctToSell`, `targetMultiple`) is preserved; an
`executed` or `skipped` tranche is left untouched; a tranche that is still
`pending` afterwards is exactly the unchanged input; and a `pending` tranche
whose target multiple exceeds the current multiple is left untouched. -/
def trancheStep (mult : ℚ) (t t' : ExecutedTranche) : Prop :=
  t'.pctToSell = t.pctToSell ∧ t'.targetMultiple = t.targetMultiple ∧
  (t.status = TrancheStatus.executed → t' = t) ∧
  (t.status = TrancheStatus.skipped → t' = t) ∧
  (t'.status = TrancheStatus.pending → t' = t) ∧
  (t.status = TrancheStatus.pending → mult < t.targetMultiple → t' = t)

instance (mult : ℚ) (t t' : ExecutedTranche) : Decidable (trancheStep mult t t') := by
  unfold trancheStep; infer_instance

/-- Once a tranche is `executed` or `skipped`, it is frozen: nothing about it
changes any more. -/
def statusFrozen (t t' : ExecutedTranche) : Prop :=
  (t.status = TrancheStatus.executed → t' = t) ∧
  (t.status = TrancheStatus.skipped → t' = t)

instance (t t' : ExecutedTranche) : Decidable (statusFrozen t t') := by
  unfold statusFrozen; infer_instance

/-- A restored DCA strategy that was `paused` at the time of the snapshot. -/
def pausedDca : TradingStrategyState :=
  { id := 1
    type := StrategyType.dca
    status := TrStatus.paused
    tokenDecimals := 18
    position := ⟨0, 0, 0, 0⟩
    pnl := ⟨0, 0⟩
    riskLimits := ⟨5000, 20, 30⟩
    trades := []
    totalGasCostEth := 0 }

/-- An evaluator registry with an evaluator for every strategy type (as the
boot path builds: dca, twap and mean-reversion evaluators are all
registered). -/
def allEvaluators : StrategyType → Option EvaluateFn :=
  fun _ => some fun _ _ => none

/-- An evaluator that never signals. -/
def noSignalEval : EvaluateFn := fun _ _ => none

/-- A running mean-reversion strategy holding 10 tokens bought at an average
entry of $1, with a 50% stop-loss configured. -/
def stopLossState : TradingStrategyState :=
  { id := 2
    type := StrategyType.meanReversion
    status := TrStatus.running
    tokenDecimals := 18
    position := ⟨10, 1, 10, 0⟩
    pnl := ⟨0, 0⟩
    riskLimits := ⟨5000, 50, 0⟩
    trades := []
    totalGasCostEth := 0 }

/-- A running strategy with no tokens, $100 invested, $20 realized back and a
30% drawdown limit: its drawdown is 80%. -/
def drawdownState : TradingStrategyState :=
  { id := 3
    type := StrategyType.dca
    status := TrStatus.running
    tokenDecimals := 18
    position := ⟨0, 1, 100, 20⟩
    pnl := ⟨0, 0⟩
    riskLimits := ⟨5000, 20, 30⟩
    trades := []
    totalGasCostEth := 0 }

/-- A freshly started running strategy: no position, nothing invested, so no
risk limit can fire. -/
def calmState : TradingStrategyState :=
  { id := 4
    type := StrategyType.twap
    status := TrStatus.running
    tokenDecimals := 18
    position := ⟨0, 0, 0, 0⟩
    pnl := ⟨0, 0⟩
    riskLimits := ⟨5000, 20, 30⟩
    trades := []
    totalGasCostEth := 0 }

/-- A tick observation at price $0.40 whose liquidation swap would confirm
with zero output. -/
def tickAt04 : TickInput :=
  { price := some (2 / 5), usdcAvailable := 0
    buyOutcome := TradeOutcome.failure, sellOutcome := TradeOutcome.success 0 0 }

/-- A tick observation at price $0.40 whose liquidation swap fails. -/
def tickAt04FailSell : TickInput :=
  { price := some (2 / 5), usdcAvailable := 0
    buyOutcome := TradeOutcome.failure, sellOutcome := TradeOutcome.failure }

/-! ## Theorems: exit strategy engine -/

theorem scanTranches_forall2 (mult : ℚ) (outs : ℕ → SwapOutcome) :
    ∀ (ts : List ExecutedTranche) (bal : ℕ) (real : ℚ) (k idx : ℕ),
      List.Forall₂ (trancheStep mult) ts (scanTranches mult outs ts bal real k idx).tranches := by
  intro ts
  induction ts with
  | nil => intro bal real k idx; simp [scanTranches]
  | cons t rest ih =>
    intro bal real k idx
    simp only [scanTranches]
    split_ifs with h1 h2 h3 h4
    · exact List.Forall₂.cons ⟨rfl, rfl, fun _ => rfl, fun _ => rfl, fun _ => rfl,
        fun _ _ => rfl⟩ (ih bal real k (idx + 1))
    · exact List.Forall₂.cons ⟨rfl, rfl, fun _ => rfl, fun _ => rfl, fun _ => rfl,
        fun _ _ => rfl⟩ (ih bal real k (idx + 1))
    · rw [not_not] at h1
      refine List.Forall₂.cons ?_ (ih bal real k (idx + 1))
      refine ⟨rfl, rfl, fun h => ?_, fun h => ?_, fun h => ?_, fun _ h => absurd h h2⟩
      · rw [h1] at h; exact absurd h (by simp)
      · rw [h1] at h; exact absurd h (by simp)
      · exact absurd h (by simp)
    · rw [not_not] at h1
      refine List.Forall₂.cons ?_ (ih bal real k (idx + 1))
      refine ⟨rfl, rfl, fun h => ?_, fun h => ?_, fun h => ?_, fun _ h => absurd h h2⟩
      · rw [h1] at h; exact absurd h (by simp)
      · rw [h1] at h; exact absurd h (by simp)
      · exact absurd h (by simp)
    · rw [not_not] at h1
      cases houts : outs k with
      | failure =>
        simp only [houts]
        exact List.Forall₂.cons ⟨rfl, rfl, fun _ => rfl, fun _ => rfl, fun _ => rfl,
          fun _ h => absurd h h2⟩ (ih bal real (k + 1) (idx + 1))
      | success amountOut newBal =>
        simp only [houts]
        refine List.Forall₂.cons ?_ (ih newBal _ (k + 1) (idx + 1))
        refine ⟨rfl, rfl, fun h => ?_, fun h => ?_, fun h => ?_, fun _ h => absurd h h2⟩
        · rw [h1] at h; exact absurd h (by simp)
        · rw [h1] at h; exact absurd h (by simp)
        · exact absurd h (by simp)

theorem scanTranches_events (mult : ℚ) (outs : ℕ → SwapOutcome) :
    ∀ (ts : List ExecutedTranche) (bal : ℕ) (real : ℚ) (k idx : ℕ),
      (∀ e ∈ (scanTranches mult outs ts bal real k idx).events,
          idx ≤ e.index ∧ e.amountSold = e.balanceBefore * e.pctToSell / 100 ∧
          e.balanceBefore ≠ 0 ∧ e.amountSold ≠ 0) ∧
      List.Chain' (fun a b => a.index < b.index)
          (scanTranches mult outs ts bal real k idx).events ∧
      List.Chain' (fun a b => b.balanceBefore = a.balanceAfter)
          (scanTranches mult outs ts bal real k idx).events ∧
      (∀ e, (scanTranches mult outs ts bal real k idx).events.head? = some e →
          e.balanceBefore = bal) := by
  intro ts
  induction ts with
  | nil =>
    intro bal real k idx
    simp [scanTranches]
  | cons t rest ih =>
    intro bal real k idx
    simp only [scanTranches]
    split_ifs with h1 h2 h3 h4
    · have := ih bal real k (idx + 1)
      exact ⟨fun e he => ⟨Nat.le_of_succ_le (this.1 e he).1, (this.1 e he).2⟩,
        this.2.1, this.2.2.1, this.2.2.2⟩
    · have := ih bal real k (idx + 1)
      exact ⟨fun e he => ⟨Nat.le_of_succ_le (this.1 e he).1, (this.1 e he).2⟩,
        this.2.1, this.2.2.1, this.2.2.2⟩
    · have := ih bal real k (idx + 1)
      exact ⟨fun e he => ⟨Nat.le_of_succ_le (this.1 e he).1, (this.1 e he).2⟩,
        this.2.1, this.2.2.1, this.2.2.2⟩
    · have := ih bal real k (idx + 1)
      exact ⟨fun e he => ⟨Nat.le_of_succ_le (this.1 e he).1, (this.1 e he).2⟩,
        this.2.1, this.2.2.1, this.2.2.2⟩
    · cases houts : outs k with
      | failure =>
        have := ih bal real (k + 1) (idx + 1)
        simp only [houts]
        exact ⟨fun e he => ⟨Nat.le_of_succ_le (this.1 e he).1, (this.1 e he).2⟩,
          this.2.1, this.2.2.1, this.2.2.2⟩
      | success amountOut newBal =>
        have ihs := ih newBal (real + (amountOut : ℚ) / 1000000) (k + 1) (idx + 1)
        simp only [houts]
        constructor
        · intro e he
          rcases List.mem_cons.mp he with he | he
          · subst he
            exact ⟨le_refl _, rfl, h3, h4⟩
          · exact ⟨Nat.le_of_succ_le (ihs.1 e he).1, (ihs.1 e he).2⟩
        constructor
        · rw [List.chain'_cons']
          refine ⟨fun b hb => ?_, ihs.2.1⟩
          have hmem : b ∈ (scanTranches mult outs rest newBal
              (real + (amountOut : ℚ) / 1000000) (k + 1) (idx + 1)).events :=
            List.mem_of_mem_head? hb
          exact Nat.lt_of_succ_le (ihs.1 b hmem).1
        constructor
        · rw [List.chain'_cons']
          exact ⟨fun b hb => ihs.2.2.2 b hb, ihs.2.2.1⟩
        · intro e he
          simp only [List.head?_cons, Option.some.injEq] at he
          rw [← he]

theorem scanTranches_zero_balance_skips (mult : ℚ) (outs : ℕ → SwapOutcome)
    (t : ExecutedTranche) (rest : List ExecutedTranche) (real : ℚ) (k idx : ℕ)
    (hp : t.status = TrancheStatus.pending) (hm : ¬ mult < t.targetMultiple) :
    (scanTranches mult outs (t :: rest) 0 real k idx).tranches.head? =
      some { t with status := TrancheStatus.skipped } := by
  simp [scanTranches, hp, hm]

theorem scanTranches_zero_amount_skips (mult : ℚ) (outs : ℕ → SwapOutcome)
    (t : ExecutedTranche) (rest : List ExecutedTranche) (bal : ℕ) (real : ℚ) (k idx : ℕ)
    (hp : t.status = TrancheStatus.pending) (hm : ¬ mult < t.targetMultiple)
    (hb : bal ≠ 0) (ha : bal * t.pctToSell / 100 = 0) :
    (scanTranches mult outs (t :: rest) bal real k idx).tranches.head? =
      some { t with status := TrancheStatus.skipped } := by
  simp [scanTranches, hp, hm, hb, ha]

theorem trancheStep_frozen {mult : ℚ} {t t' : ExecutedTranche}
    (h : trancheStep mult t t') : statusFrozen t t' :=
  ⟨h.2.2.1, h.2.2.2.1⟩

theorem forall2_frozen_refl (l : List ExecutedTranche) :
    List.Forall₂ statusFrozen l l := by
  rw [List.forall₂_same]
  exact fun t _ => ⟨fun _ => rfl, fun _ => rfl⟩

theorem forall2_frozen_trans :
    ∀ {l₁ l₂ l₃ : List ExecutedTranche},
      List.Forall₂ statusFrozen l₁ l₂ → List.Forall₂ statusFrozen l₂ l₃ →
      List.Forall₂ statusFrozen l₁ l₃ := by
  intro l₁ l₂ l₃ h12 h23
  induction h12 generalizing l₃ with
  | nil => cases h23; exact List.Forall₂.nil
  | cons hab hrest ih =>
    cases h23 with
    | cons hbc hrest' =>
      refine List.Forall₂.cons ⟨fun h => ?_, fun h => ?_⟩ (ih hrest')
      · have e1 := hab.1 h
        have e2 := hbc.1 (by rw [e1, h])
        rw [e2, e1]
      · have e1 := hab.2 h
        have e2 := hbc.2 (by rw [e1, h])
        rw [e2, e1]

theorem pollTick_tranches (s : ExitStrategyState) (obs : ExitTickObs) :
    (pollTick s obs).tranches = s.tranches ∨
    ∃ mult, (pollTick s obs).tranches =
      (scanTranches mult obs.outs s.tranches obs.onChainBalance s.totalUsdcRealized 0 0).tranches := by
  simp only [pollTick]
  split_ifs with h1 h2 h3
  all_goals first
    | exact Or.inl rfl
    | exact Or.inr ⟨_, rfl⟩

theorem pollTick_frozen (s : ExitStrategyState) (obs : ExitTickObs) :
    List.Forall₂ statusFrozen s.tranches (pollTick s obs).tranches := by
  rcases pollTick_tranches s obs with h | ⟨mult, h⟩
  · rw [h]; exact forall2_frozen_refl _
  · rw [h]
    exact (scanTranches_forall2 _ _ _ _ _ _ _).imp fun _ _ h => trancheStep_frozen h

theorem pollTicks_frozen (s : ExitStrategyState) (obsList : List ExitTickObs) :
    List.Forall₂ statusFrozen s.tranches (pollTicks s obsList).tranches := by
  induction obsList generalizing s with
  | nil => exact forall2_frozen_refl _
  | cons o rest ih =>
    exact forall2_frozen_trans (pollTick_frozen s o) (ih (pollTick s o))

/-- Claim C6: in the exit engine's tranche scan, a tranche at target multiple M is
never executed on a tick where the current multiple is below M (a pending tranche
below target is returned untouched); once a tranche is `executed` or `skipped` it
never becomes `pending` again and is never executed a second time — both within
one scan and across any sequence of ticks; tranches are scanned and executed in
their declared order (the executed-event indices are strictly increasing); a
triggered tranche sells its percentage of the balance at the time of triggering —
each sell event's amount is `balanceBefore * pct / 100` where `balanceBefore`
starts at this tick's refreshed balance and is chained through the preceding
sells of the same tick; and a triggered tranche whose balance is zero or whose
computed sell amount rounds to zero is marked `skipped`, not failed. -/
theorem exit_tranche_scan_invariants (mult : ℚ) (outs : ℕ → SwapOutcome)
    (ts : List ExecutedTranche) (bal : ℕ) (real : ℚ) (k idx : ℕ) :
    List.Forall₂ (trancheStep mult) ts (scanTranches mult outs ts bal real k idx).tranches
    ∧ List.Chain' (fun a b => a.index < b.index)
        (scanTranches mult outs ts bal real k idx).events
    ∧ (∀ e ∈ (scanTranches mult outs ts bal real k idx).events,
        e.amountSold = e.balanceBefore * e.pctToSell / 100 ∧
        e.balanceBefore ≠ 0 ∧ e.amountSold ≠ 0)
    ∧ List.Chain' (fun a b => b.balanceBefore = a.balanceAfter)
        (scanTranches mult outs ts bal real k idx).events
    ∧ (∀ e, (scanTranches mult outs ts bal real k idx).events.head? = some e →
        e.balanceBefore = bal)
    ∧ (∀ (t : ExecutedTranche) (rest : List ExecutedTranche),
        t.status = TrancheStatus.pending → ¬ mult < t.targetMultiple →
        (scanTranches mult outs (t :: rest) 0 real k idx).tranches.head? =
          some { t with status := TrancheStatus.skipped })
    ∧ (∀ (t : ExecutedTranche) (rest : List ExecutedTranche),
        t.status = TrancheStatus.pending → ¬ mult < t.targetMultiple →
        bal ≠ 0 → bal * t.pctToSell / 100 = 0 →
        (scanTranches mult outs (t :: rest) bal real k idx).tranches.head? =
          some { t with status := TrancheStatus.skipped })
    ∧ (∀ (s : ExitStrategyState) (obsList : List ExitTickObs),
        List.Forall₂ statusFrozen s.tranches (pollTicks s obsList).tranches) := by
  refine ⟨scanTranches_forall2 mult outs ts bal real k idx,
    (scanTranches_events mult outs ts bal real k idx).2.1,
    fun e he => ((scanTranches_events mult outs ts bal real k idx).1 e he).2,
    (scanTranches_events mult outs ts bal real k idx).2.2.1,
    (scanTranches_events mult outs ts bal real k idx).2.2.2,
    fun t rest hp hm => scanTranches_zero_balance_skips mult outs t rest real k idx hp hm,
    fun t rest hp hm hb ha =>
      scanTranches_zero_amount_skips mult outs t rest bal real k idx hp hm hb ha,
    fun s obsList => pollTicks_frozen s obsList⟩

theorem exit_tranche_scan_invariants_witness :
    List.Forall₂ (trancheStep 3)
      [⟨50, 3, TrancheStatus.pending, none⟩, ⟨50, 5, TrancheStatus.pending, none⟩]
      (scanTranches 3 (fun _ => SwapOutcome.success 500000000 500)
        [⟨50, 3, TrancheStatus.pending, none⟩, ⟨50, 5, TrancheStatus.pending, none⟩]
        1000 0 0 0).tranches
    ∧ (scanTranches 3 (fun _ => SwapOutcome.success 500000000 500)
        [⟨50, 3, TrancheStatus.pending, none⟩] 0 0 0 0).tranches.head? =
      some ⟨50, 3, TrancheStatus.skipped, none⟩ := by
  constructor
  · exact (exit_tranche_scan_invariants 3 (fun _ => SwapOutcome.success 500000000 500)
      [⟨50, 3, TrancheStatus.pending, none⟩, ⟨50, 5, TrancheStatus.pending, none⟩]
      1000 0 0 0).1
  · exact (exit_tranche_scan_invariants 3 (fun _ => SwapOutcome.success 500000000 500)
      [] 0 0 0 0).2.2.2.2.2.1 ⟨50, 3, TrancheStatus.pending, none⟩ [] rfl (by norm_num)

/-- Claim C7: when the swap for a triggered exit tranche fails with an executor
error, the tranche's status remains `pending` (the tranche is returned
unchanged, and the scan continues over the remaining tranches with the balance
and realized total unchanged, so it is eligible to retry on the next tick); and
a tranche is only marked `executed` when the sell was confirmed (or was already
`executed` before the scan). -/
theorem exit_tranche_sell_failure_keeps_pending (mult : ℚ) (outs : ℕ → SwapOutcome)
    (t : ExecutedTranche) (rest : List ExecutedTranche) (bal : ℕ) (real : ℚ) (k idx : ℕ) :
    (t.status = TrancheStatus.pending → ¬ mult < t.targetMultiple → bal ≠ 0 →
      bal * t.pctToSell / 100 ≠ 0 → outs k = SwapOutcome.failure →
      (scanTranches mult outs (t :: rest) bal real k idx).tranches.head? = some t ∧
      (scanTranches mult outs (t :: rest) bal real k idx).balance =
        (scanTranches mult outs rest bal real (k + 1) (idx + 1)).balance ∧
      (scanTranches mult outs (t :: rest) bal real k idx).realized =
        (scanTranches mult outs rest bal real (k + 1) (idx + 1)).realized ∧
      (scanTranches mult outs (t :: rest) bal real k idx).events =
        (scanTranches mult outs rest bal real (k + 1) (idx + 1)).events)
    ∧ (∀ t', (scanTranches mult outs (t :: rest) bal real k idx).tranches.head? = some t' →
        t'.status = TrancheStatus.executed →
        (t.status = TrancheStatus.executed ∧ t' = t) ∨
        ∃ a nb, outs k = SwapOutcome.success a nb) := by
  constructor
  · intro hp hm hb ha houts
    simp [scanTranches, hp, hm, hb, ha, houts]
  · intro t' hhead hex
    simp only [scanTranches] at hhead
    split_ifs at hhead with h1 h2 h3 h4
    · simp only [List.head?_cons, Option.some.injEq] at hhead
      subst hhead
      exact Or.inl ⟨hex, rfl⟩
    · simp only [List.head?_cons, Option.some.injEq] at hhead
      subst hhead
      exact Or.inl ⟨hex, rfl⟩
    · simp only [List.head?_cons, Option.some.injEq] at hhead
      rw [← hhead] at hex
      exact absurd hex (by simp)
    · simp only [List.head?_cons, Option.some.injEq] at hhead
      rw [← hhead] at hex
      exact absurd hex (by simp)
    · cases houts : outs k with
      | failure =>
        simp only [houts] at hhead
        simp only [List.head?_cons, Option.some.injEq] at hhead
        subst hhead
        exact Or.inl ⟨hex, rfl⟩
      | success a nb =>
        exact Or.inr ⟨a, nb, rfl⟩

theorem exit_tranche_sell_failure_keeps_pending_witness :
    (scanTranches 3 (fun _ => SwapOutcome.failure)
      [⟨50, 3, TrancheStatus.pending, none⟩] 1000 0 0 0).tranches.head? =
      some ⟨50, 3, TrancheStatus.pending, none⟩ := by
  exact ((exit_tranche_sell_failure_keeps_pending 3 (fun _ => SwapOutcome.failure)
    ⟨50, 3, TrancheStatus.pending, none⟩ [] 1000 0 0 0).1
    rfl (by norm_num) (by decide) (by decide) rfl).1

/-- Claim C1 (the stop-loss aware exit tick is modelled from the spec, its
source revision not being among the included files): whenever a stop-loss
multiple is configured and the current valuation multiple has fallen below it,
the tick sells the entire current balance, leaves no tranche `pending` (every
still-pending tranche becomes `skipped`), and ends in terminal status
`stopped`, regardless of the tranche configuration. -/
theorem exit_stopLoss_stops_everything (s : ExitStrategyState) (obs : ExitTickObs) (sl : ℚ)
    (hrun : s.status = ExitStatus.running)
    (hsl : s.stopLossMultiple = some sl)
    (hlt : currentMultipleOf s obs.price < sl) :
    (pollTickSL s obs).1.status = ExitStatus.stopped ∧
    (∀ t ∈ (pollTickSL s obs).1.tranches, t.status ≠ TrancheStatus.pending) ∧
    (pollTickSL s obs).2 = some obs.onChainBalance ∧
    (pollTickSL s obs).1.currentBalance = 0 := by
  simp only [pollTickSL, hsl]
  rw [if_neg (by simp [hrun]), if_pos hlt]
  refine ⟨rfl, ?_, rfl, rfl⟩
  intro t ht
  rcases List.mem_map.mp ht with ⟨u, _, rfl⟩
  by_cases hu : u.status = TrancheStatus.pending
  · simp [hu]
  · simp [hu]

theorem exit_stopLoss_stops_everything_witness :
    (pollTickSL
      { tokenDecimals := 0, totalSupply := 1000, entryFdv := 1000, initialBalance := 800,
        currentBalance := 800, currentFdv := 0, currentMultiple := 0,
        tranches := [⟨50, 3, TrancheStatus.pending, none⟩, ⟨50, 5, TrancheStatus.executed, some 1⟩],
        totalUsdcRealized := 0, status := ExitStatus.running, stopLossMultiple := some 2 }
      { price := 1, onChainBalance := 800, outs := fun _ => SwapOutcome.success 100 0 }).1.status =
      ExitStatus.stopped ∧
    (∀ t ∈ (pollTickSL
      { tokenDecimals := 0, totalSupply := 1000, entryFdv := 1000, initialBalance := 800,
        currentBalance := 800, currentFdv := 0, currentMultiple := 0,
        tranches := [⟨50, 3, TrancheStatus.pending, none⟩, ⟨50, 5, TrancheStatus.executed, some 1⟩],
        totalUsdcRealized := 0, status := ExitStatus.running, stopLossMultiple := some 2 }
      { price := 1, onChainBalance := 800, outs := fun _ => SwapOutcome.success 100 0 }).1.tranches,
      t.status ≠ TrancheStatus.pending) := by
  have h := exit_stopLoss_stops_everything
    { tokenDecimals := 0, totalSupply := 1000, entryFdv := 1000, initialBalance := 800,
      currentBalance := 800, currentFdv := 0, currentMultiple := 0,
      tranches := [⟨50, 3, TrancheStatus.pending, none⟩, ⟨50, 5, TrancheStatus.executed, some 1⟩],
      totalUsdcRealized := 0, status := ExitStatus.running, stopLossMultiple := some 2 }
    { price := 1, onChainBalance := 800, outs := fun _ => SwapOutcome.success 100 0 }
    2 rfl rfl (by norm_num [currentMultipleOf])
  exact ⟨h.1, h.2.1⟩

/-! ## Theorems: bid strategy engine -/

theorem placeBid_priceTooLow_currentFdv (s : StrategyState) :
    (placeBid s BidOutcome.priceTooLow).1.currentFdv =
      min ((⌈s.currentFdv * (6 / 5)⌉ : ℤ) : ℚ) s.maxFdvUsd := rfl

theorem biddingAux_status (endBlock : ℕ) (inputs : ℕ → BidObs × BidOutcome) :
    ∀ (fuel i : ℕ) (s : StrategyState), s.status = BidStatus.bidding →
      (biddingAux endBlock inputs fuel i s).1.status = BidStatus.bidding ∨
      (biddingAux endBlock inputs fuel i s).1.status = BidStatus.done := by
  intro fuel
  induction fuel with
  | zero => intro i s hs; exact Or.inl hs
  | succ fuel ih =>
    intro i s hs
    rw [biddingAux]
    rw [if_neg (by simp [hs])]
    by_cases h2 : endBlock ≤ (inputs i).1.blockNumber
    · rw [if_pos h2]; exact Or.inr rfl
    · rw [if_neg h2]
      have hstate : (bidAttemptState s (inputs i).1).status = BidStatus.bidding := by
        cases hobs : (inputs i).1.implied <;>
          simp [bidAttemptState, updateImplied, hobs, hs]
      by_cases hok : (placeBid (bidAttemptState s (inputs i).1) (inputs i).2).2
      · rw [if_pos hok]; exact Or.inr rfl
      · rw [if_neg hok]
        by_cases hdone :
            (placeBid (bidAttemptState s (inputs i).1) (inputs i).2).1.status = BidStatus.done
        · rw [if_pos hdone]; exact Or.inr hdone
        · rw [if_neg hdone]
          have hb : (placeBid (bidAttemptState s (inputs i).1) (inputs i).2).1.status
              = BidStatus.bidding := by
            cases hout : (inputs i).2 with
            | confirmed actual =>
              exact absurd (by simp [placeBid, hout]) hok
            | priceTooLow => simp [placeBid, hout, hstate]
            | auctionEnded =>
              exact absurd (by simp [placeBid, hout]) hdone
            | otherFailure => simp [placeBid, hout, hstate]
          exact ih (i + 1) _ hb

/-- Claim C8: in the `bidding` phase, a failure classified as auction-ended
transitions the strategy immediately to terminal `done` (that attempt is the
last), and the bidding phase always ends in `done` — in particular after
exhausting the bounded attempt count without a confirmed bid — never in
`failed`. -/
theorem bid_phase_ends_done (endBlock : ℕ) (inputs : ℕ → BidObs × BidOutcome)
    (s : StrategyState) (hs : s.status = BidStatus.bidding) :
    (biddingPhase endBlock inputs s).1.status = BidStatus.done
    ∧ (biddingPhase endBlock inputs s).1.status ≠ BidStatus.failed
    ∧ (∀ (fuel i : ℕ), (inputs i).2 = BidOutcome.auctionEnded →
        (inputs i).1.blockNumber < endBlock →
        (biddingAux endBlock inputs (fuel + 1) i s).1.status = BidStatus.done ∧
        (biddingAux endBlock inputs (fuel + 1) i s).2.length = 1) := by
  have hdone : (biddingPhase endBlock inputs s).1.status = BidStatus.done := by
    have h := biddingAux_status endBlock inputs s.maxBidAttempts 0 s hs
    simp only [biddingPhase]
    rcases h with h | h
    · rw [if_pos h]
    · rw [if_neg (by rw [h]; simp)]
      exact h
  refine ⟨hdone, by rw [hdone]; simp, ?_⟩
  intro fuel i hout hblock
  rw [biddingAux]
  rw [if_neg (by simp [hs]), if_neg (by simpa using hblock)]
  rw [hout]
  simp [placeBid]

theorem bid_phase_ends_done_witness :
    (biddingPhase 100 (fun _ => (⟨0, none⟩, BidOutcome.auctionEnded))
      (enterBiddingNoBids 500 10000 50000)).1.status = BidStatus.done
    ∧ (biddingAux 100 (fun _ => (⟨0, none⟩, BidOutcome.auctionEnded)) 1 0
        (enterBiddingNoBids 500 10000 50000)).2.length = 1 := by
  have h := bid_phase_ends_done 100 (fun _ => (⟨0, none⟩, BidOutcome.auctionEnded))
    (enterBiddingNoBids 500 10000 50000) rfl
  exact ⟨h.1, (h.2.2 0 0 rfl (by norm_num)).2⟩

/-- Claim C4 is false as stated: with ceiling $50,000 and floor $10,000,
entering `bidding` with no clearing price, the first attempt targets $10,500
as claimed, and the price-too-low rejection bumps the stored `currentFdv` to
$12,600 — but the next attempt recomputes its target from the freshly
observed auction data, so with still no clearing price it targets $10,500
again, not $12,600. -/
theorem bid_example_second_attempt_not_bumped :
    (biddingPhase 100 noClearingAllRejected (enterBiddingNoBids 500 10000 50000)).2 =
      [10500, 10500]
    ∧ (biddingPhase 100 noClearingAllRejected (enterBiddingNoBids 500 10000 50000)).2.get? 1
        ≠ some 12600 := by
  have htr : (biddingPhase 100 noClearingAllRejected (enterBiddingNoBids 500 10000 50000)).2 =
      [10500, 10500] := by
    norm_num [biddingPhase, biddingAux, bidAttemptState, computeTargetFdv, updateImplied,
      placeBid, enterBiddingNoBids, noClearingAllRejected]
    decide
  refine ⟨htr, ?_⟩
  rw [htr]
  norm_num

/-- Claim C4 (amended): the initial target is exactly $10,500 =
⌈$10,000 × 1.05⌉; a price-too-low rejection bumps the stored `currentFdv` to
exactly $12,600 = min(⌈$10,500 × 1.20⌉, $50,000), but the bumped value does
not feed the next attempt — each attempt recomputes its target from the
observed clearing price (or the floor), so with still no clearing price both
attempts target $10,500; and no attempt's target exceeds $50,000. -/
theorem bid_example_targets :
    (biddingPhase 100 noClearingAllRejected (enterBiddingNoBids 500 10000 50000)).2 =
      [10500, 10500]
    ∧ (placeBid { enterBiddingNoBids 500 10000 50000 with currentFdv := 10500 }
        BidOutcome.priceTooLow).1.currentFdv = 12600
    ∧ ((biddingPhase 100 noClearingAllRejected (enterBiddingNoBids 500 10000 50000)).2.all
        fun t => decide (t ≤ 50000)) = true := by
  have htr : (biddingPhase 100 noClearingAllRejected (enterBiddingNoBids 500 10000 50000)).2 =
      [10500, 10500] := by
    norm_num [biddingPhase, biddingAux, bidAttemptState, computeTargetFdv, updateImplied,
      placeBid, enterBiddingNoBids, noClearingAllRejected]
    decide
  refine ⟨htr, by norm_num [placeBid, enterBiddingNoBids], ?_⟩
  rw [htr]
  decide

/-- Claim C5 is false as stated: within one `bidding` episode the per-attempt
target FDVs need not be monotonically non-decreasing — each attempt recomputes
its target from the freshly observed clearing price, so after a first attempt
at $10,500 (no clearing data, rejected price-too-low), a second attempt that
observes a clearing-implied FDV of $1,000 targets only
$1,150 = ⌈$1,000 × 1.15⌉ < $10,500. -/
theorem bid_targets_not_monotone :
    (biddingPhase 100 lateSmallClearing (enterBiddingNoBids 500 10000 50000)).2 =
      [10500, 1150]
    ∧ ¬ ((10500 : ℚ) ≤ 1150) := by
  constructor
  · norm_num [biddingPhase, biddingAux, bidAttemptState, computeTargetFdv, updateImplied,
      placeBid, enterBiddingNoBids, lateSmallClearing]
    decide
  · norm_num

/-- Claim C5 (amended): the price-too-low bump applied to the stored target
never decreases it, and strictly increases it whenever the rejected target is
below the configured ceiling (at the ceiling the bump is capped and the
stored target stays put); the per-attempt target sequence itself is not
monotone in general, because every attempt recomputes its target from the
latest observed clearing price. -/
theorem bid_bump_monotone (s : StrategyState)
    (h0 : 0 < s.currentFdv) (hle : s.currentFdv ≤ s.maxFdvUsd) :
    s.currentFdv ≤ (placeBid s BidOutcome.priceTooLow).1.currentFdv
    ∧ (s.currentFdv < s.maxFdvUsd →
        s.currentFdv < (placeBid s BidOutcome.priceTooLow).1.currentFdv) := by
  have hceil : s.currentFdv < ((⌈s.currentFdv * (6 / 5)⌉ : ℤ) : ℚ) :=
    lt_of_lt_of_le (by linarith) (Int.le_ceil _)
  constructor
  · rw [placeBid_priceTooLow_currentFdv]
    exact le_min hceil.le hle
  · intro hlt
    rw [placeBid_priceTooLow_currentFdv]
    exact lt_min hceil hlt

theorem bid_bump_monotone_witness :
    (0 : ℚ) < ({ enterBiddingNoBids 500 10000 50000 with
        currentFdv := 10500 } : StrategyState).currentFdv
    ∧ ({ enterBiddingNoBids 500 10000 50000 with
        currentFdv := 10500 } : StrategyState).currentFdv <
      ({ enterBiddingNoBids 500 10000 50000 with
        currentFdv := 10500 } : StrategyState).maxFdvUsd
    ∧ ({ enterBiddingNoBids 500 10000 50000 with
        currentFdv := 10500 } : StrategyState).currentFdv <
      (placeBid { enterBiddingNoBids 500 10000 50000 with currentFdv := 10500 }
        BidOutcome.priceTooLow).1.currentFdv := by
  have h := bid_bump_monotone
    { enterBiddingNoBids 500 10000 50000 with currentFdv := 10500 }
    (by norm_num [enterBiddingNoBids]) (by norm_num [enterBiddingNoBids])
  exact ⟨by norm_num [enterBiddingNoBids], by norm_num [enterBiddingNoBids],
    h.2 (by norm_num [enterBiddingNoBids])⟩

/-! ## Theorems: trading engine -/

theorem executeBuy_balance_nonneg (s : TradingStrategyState)
    (amountUsdc currentPrice usdcAvailable : ℚ) (out : TradeOutcome)
    (h : 0 ≤ s.position.tokenBalance) :
    0 ≤ (executeBuy s amountUsdc currentPrice usdcAvailable out).position.tokenBalance := by
  unfold executeBuy
  split_ifs with h1
  · exact h
  · cases out with
    | failure => exact h
    | success amountOut gas =>
      dsimp only
      exact add_nonneg h (by positivity)

theorem executeSell_balance_nonneg (s : TradingStrategyState)
    (tokenAmount currentPrice : ℚ) (out : TradeOutcome)
    (h : 0 ≤ s.position.tokenBalance) :
    0 ≤ (executeSell s tokenAmount currentPrice out).position.tokenBalance := by
  unfold executeSell
  cases out with
  | failure => exact h
  | success amountOut gas =>
    dsimp only
    split_ifs with h1
    · exact le_refl 0
    · exact le_of_not_lt h1

theorem withUnrealized_position (s : TradingStrategyState) (p : ℚ) :
    (withUnrealized s p).position = s.position := rfl

theorem tick_balance_nonneg (s : TradingStrategyState) (ev : EvaluateFn) (inp : TickInput)
    (h : 0 ≤ s.position.tokenBalance) :
    0 ≤ (tick s ev inp).1.position.tokenBalance := by
  unfold tick
  cases hp : inp.price with
  | none => exact h
  | some p =>
    dsimp only
    split_ifs with h1 h2
    · exact executeSell_balance_nonneg _ _ _ _ h
    · exact h
    · cases hev : ev (withUnrealized s p) p with
      | none => exact h
      | some signal =>
        dsimp only
        split_ifs with h3 h4 h5
        · exact h
        · exact executeBuy_balance_nonneg (withUnrealized s p)
            (min signal.amountUsdc maxSingleTradeUsdc) p inp.usdcAvailable inp.buyOutcome h
        · exact executeSell_balance_nonneg (withUnrealized s p)
            (min (min signal.amountUsdc maxSingleTradeUsdc / p) s.position.tokenBalance)
            p inp.sellOutcome h
        · exact h

theorem strategyLoopTick_balance_nonneg (s : TradingStrategyState) (ev : EvaluateFn)
    (inp : TickInput) (h : 0 ≤ s.position.tokenBalance) :
    0 ≤ (strategyLoopTick s ev inp).1.position.tokenBalance := by
  by_cases h1 : s.status ≠ TrStatus.running
  · rw [strategyLoopTick, if_pos h1]; exact h
  · rw [strategyLoopTick, if_neg h1]; exact tick_balance_nonneg s ev inp h

theorem sellStrategyPosition_balance_nonneg (s : TradingStrategyState) (pct : ℚ)
    (trackedPrice : Option ℚ) (out : TradeOutcome) (h : 0 ≤ s.position.tokenBalance) :
    0 ≤ (sellStrategyPosition s pct trackedPrice out).position.tokenBalance := by
  unfold sellStrategyPosition
  split_ifs with h1 h2 h3
  · exact h
  · exact h
  · exact executeSell_balance_nonneg s (s.position.tokenBalance * (pct / 100))
      (trackedPrice.getD s.position.avgEntryPrice) out h
  · exact executeSell_balance_nonneg s (s.position.tokenBalance * (pct / 100))
      (trackedPrice.getD s.position.avgEntryPrice) out h

theorem applyOp_balance_nonneg (s : TradingStrategyState) (op : TradeOp)
    (h : 0 ≤ s.position.tokenBalance) :
    0 ≤ (applyOp s op).position.tokenBalance := by
  cases op with
  | tickOp ev inp => exact strategyLoopTick_balance_nonneg s ev inp h
  | manualSell pct p out => exact sellStrategyPosition_balance_nonneg s pct p out h
  | buyOp a p avail out => exact executeBuy_balance_nonneg s a p avail out h
  | sellOp amt p out => exact executeSell_balance_nonneg s amt p out h

/-- Claim C9: for every trading strategy state with a non-negative token
balance and every sequence of engine operations — ticks (signal buys, signal
sells, stop-loss liquidations), manual percentage sells, and direct
buy/sell executions — the position's token balance is never negative after
any operation completes. -/
theorem trading_balance_never_negative (s : TradingStrategyState) (ops : List TradeOp)
    (h : 0 ≤ s.position.tokenBalance) :
    0 ≤ (applyOps s ops).position.tokenBalance := by
  induction ops generalizing s with
  | nil => exact h
  | cons op rest ih => exact ih (applyOp s op) (applyOp_balance_nonneg s op h)

theorem trading_balance_never_negative_witness :
    (0 : ℚ) ≤ stopLossState.position.tokenBalance
    ∧ 0 ≤ (applyOps stopLossState
        [TradeOp.sellOp 50 1 (TradeOutcome.success 3 0),
         TradeOp.tickOp noSignalEval tickAt04]).position.tokenBalance := by
  exact ⟨by norm_num [stopLossState],
    trading_balance_never_negative stopLossState _ (by norm_num [stopLossState])⟩

/-- Claim C3: on every trading-engine tick (of a running strategy with a known
price) the risk limits are evaluated before the evaluator, in fixed priority
order.  First, if the stop-loss guard fires, the entire position is sold (the
balance is zero after a confirmed liquidation), the status becomes `done`,
and the evaluator is not consulted on this tick — nor on any later tick,
since the loop body does nothing once the strategy is no longer `running`.
Second, if the stop-loss does not fire but the drawdown guard does, the
status becomes `paused` with no trade (position and trade log unchanged) and
the evaluator is skipped.  The evaluator is consulted exactly when neither
limit fires. -/
theorem trading_risk_limits_priority (s : TradingStrategyState) (ev : EvaluateFn)
    (inp : TickInput) (p : ℚ) (hrun : s.status = TrStatus.running)
    (hp : inp.price = some p) :
    (stopLossFires s p →
        (strategyLoopTick s ev inp).1.status = TrStatus.done ∧
        (strategyLoopTick s ev inp).2 = false ∧
        (∀ a g, inp.sellOutcome = TradeOutcome.success a g →
          (strategyLoopTick s ev inp).1.position.tokenBalance = 0) ∧
        (∀ (ev' : EvaluateFn) (inp' : TickInput),
          strategyLoopTick (strategyLoopTick s ev inp).1 ev' inp' =
            ((strategyLoopTick s ev inp).1, false)))
    ∧ (¬ stopLossFires s p → drawdownFires s p →
        (strategyLoopTick s ev inp).1.status = TrStatus.paused ∧
        (strategyLoopTick s ev inp).2 = false ∧
        (strategyLoopTick s ev inp).1.position = s.position ∧
        (strategyLoopTick s ev inp).1.trades = s.trades)
    ∧ (¬ stopLossFires s p → ¬ drawdownFires s p →
        (strategyLoopTick s ev inp).2 = true) := by
  have hloop : strategyLoopTick s ev inp = tick s ev inp := by
    rw [strategyLoopTick, if_neg (by simp [hrun])]
  refine ⟨?_, ?_, ?_⟩
  · intro hsl
    have htick : tick s ev inp =
        ({ executeSell (withUnrealized s p) s.position.tokenBalance p inp.sellOutcome with
            status := TrStatus.done }, false) := by
      rw [tick, hp]
      dsimp only
      rw [if_pos hsl]
    rw [hloop, htick]
    refine ⟨rfl, rfl, ?_, ?_⟩
    · intro a g hout
      simp [executeSell, hout, withUnrealized]
    · intro ev' inp'
      rw [strategyLoopTick, if_pos (by simp)]
  · intro hnsl hdd
    have htick : tick s ev inp =
        ({ withUnrealized s p with status := TrStatus.paused }, false) := by
      rw [tick, hp]
      dsimp only
      rw [if_neg hnsl, if_pos hdd]
    rw [hloop, htick]
    exact ⟨rfl, rfl, rfl, rfl⟩
  · intro hnsl hndd
    rw [hloop, tick, hp]
    dsimp only
    rw [if_neg hnsl, if_neg hndd]
    cases hev : ev (withUnrealized s p) p with
    | none => rfl
    | some signal =>
      dsimp only
      split_ifs <;> rfl

theorem trading_risk_limits_priority_witness :
    stopLossFires stopLossState (2 / 5)
    ∧ (strategyLoopTick stopLossState noSignalEval tickAt04).1.status = TrStatus.done
    ∧ (strategyLoopTick stopLossState noSignalEval tickAt04).1.position.tokenBalance = 0
    ∧ (strategyLoopTick stopLossState noSignalEval tickAt04).2 = false
    ∧ ¬ stopLossFires drawdownState (2 / 5)
    ∧ drawdownFires drawdownState (2 / 5)
    ∧ (strategyLoopTick drawdownState noSignalEval tickAt04).1.status = TrStatus.paused
    ∧ (strategyLoopTick drawdownState noSignalEval tickAt04).1.trades = drawdownState.trades
    ∧ ¬ stopLossFires calmState (2 / 5)
    ∧ ¬ drawdownFires calmState (2 / 5)
    ∧ (strategyLoopTick calmState noSignalEval tickAt04).2 = true := by
  have hsl : stopLossFires stopLossState (2 / 5) := by
    norm_num [stopLossFires, stopLossState]
  have hnsl : ¬ stopLossFires drawdownState (2 / 5) := by
    norm_num [stopLossFires, drawdownState]
  have hdd : drawdownFires drawdownState (2 / 5) := by
    norm_num [drawdownFires, drawdownState, unrealizedAt]
  have hnslc : ¬ stopLossFires calmState (2 / 5) := by
    norm_num [stopLossFires, calmState]
  have hnddc : ¬ drawdownFires calmState (2 / 5) := by
    norm_num [drawdownFires, calmState, unrealizedAt]
  have h1 := (trading_risk_limits_priority stopLossState noSignalEval tickAt04 (2 / 5)
    rfl rfl).1 hsl
  have h2 := (trading_risk_limits_priority drawdownState noSignalEval tickAt04 (2 / 5)
    rfl rfl).2.1 hnsl hdd
  have h3 := (trading_risk_limits_priority calmState noSignalEval tickAt04 (2 / 5)
    rfl rfl).2.2 hnslc hnddc
  exact ⟨hsl, h1.1, h1.2.2.1 0 0 rfl, h1.2.1, hnsl, hdd, h2.1, h2.2.2.2, hnslc, hnddc, h3⟩

/-- Claim C10: when the trading engine's stop-loss triggers on a tick, the
strategy status is set to `done` unconditionally — even when the liquidation
sell itself fails, in which case the position (the still-held token balance)
and the trade log are left unchanged while the strategy is terminal. -/
theorem trading_stopLoss_done_despite_sell_failure (s : TradingStrategyState)
    (ev : EvaluateFn) (inp : TickInput) (p : ℚ) (hrun : s.status = TrStatus.running)
    (hp : inp.price = some p) (hsl : stopLossFires s p)
    (hfail : inp.sellOutcome = TradeOutcome.failure) :
    (strategyLoopTick s ev inp).1.status = TrStatus.done
    ∧ (strategyLoopTick s ev inp).1.position = s.position
    ∧ (strategyLoopTick s ev inp).1.trades = s.trades
    ∧ (strategyLoopTick s ev inp).2 = false := by
  have hloop : strategyLoopTick s ev inp = tick s ev inp := by
    rw [strategyLoopTick, if_neg (by simp [hrun])]
  have htick : tick s ev inp =
      ({ executeSell (withUnrealized s p) s.position.tokenBalance p inp.sellOutcome with
          status := TrStatus.done }, false) := by
    rw [tick, hp]
    dsimp only
    rw [if_pos hsl]
  rw [hloop, htick]
  refine ⟨rfl, ?_, ?_, rfl⟩
  · simp [executeSell, hfail, withUnrealized]
  · simp [executeSell, hfail, withUnrealized]

theorem trading_stopLoss_done_despite_sell_failure_witness :
    stopLossFires stopLossState (2 / 5)
    ∧ (strategyLoopTick stopLossState noSignalEval tickAt04FailSell).1.status = TrStatus.done
    ∧ (strategyLoopTick stopLossState noSignalEval tickAt04FailSell).1.position =
        stopLossState.position := by
  have hsl : stopLossFires stopLossState (2 / 5) := by
    norm_num [stopLossFires, stopLossState]
  have h := trading_stopLoss_done_despite_sell_failure stopLossState noSignalEval
    tickAt04FailSell (2 / 5) rfl rfl hsl rfl
  exact ⟨hsl, h.1, h.2.1⟩

/-! ## Theorems: persistence restore path -/

theorem resumeTradingStrategies_eq_filter_map
    (evaluators : StrategyType → Option EvaluateFn) :
    ∀ m : List (ℕ × TradingStrategyState),
      resumeTradingStrategies evaluators m =
        (m.filter fun e =>
          decide (e.2.status = TrStatus.running ∧ (evaluators e.2.type).isSome)).map
          fun e => RestoreAction.armTimer e.2.id := by
  intro m
  induction m with
  | nil => rfl
  | cons e rest ih =>
    rw [resumeTradingStrategies]
    by_cases hcond : e.2.status = TrStatus.running ∧ (evaluators e.2.type).isSome
    · rw [if_pos hcond, List.filter_cons_of_pos (by simpa using hcond), List.map_cons, ih]
    · rw [if_neg hcond, List.filter_cons_of_neg (by simpa using hcond), ih]

/-- Claim C2 (amended): the boot-time restore repopulates the in-memory maps
verbatim and re-arms tick loops exactly for the restored trading strategies
whose status is `running` (and whose type has a registered evaluator);
`paused` trading strategies and restored bid strategies of any status are
repopulated without their loops being re-armed; and the restore performs no
external bid or trade action. -/
theorem restore_rearms_only_running (bidStates : List StrategyState)
    (tradingStates : List TradingStrategyState)
    (evaluators : StrategyType → Option EvaluateFn) :
    (restoreBoot bidStates tradingStates evaluators).2.2 =
      ((setTradingStrategies [] tradingStates).filter fun e =>
        decide (e.2.status = TrStatus.running ∧ (evaluators e.2.type).isSome)).map
        (fun e => RestoreAction.armTimer e.2.id)
    ∧ (∀ a ∈ (restoreBoot bidStates tradingStates evaluators).2.2,
        a ≠ RestoreAction.externalBid ∧ a ≠ RestoreAction.externalTrade)
    ∧ (restoreBoot bidStates tradingStates evaluators).1 = setStrategies [] bidStates
    ∧ (restoreBoot bidStates tradingStates evaluators).2.1 =
        setTradingStrategies [] tradingStates := by
  refine ⟨resumeTradingStrategies_eq_filter_map evaluators _, ?_, rfl, rfl⟩
  intro a ha
  have ha' : a ∈ resumeTradingStrategies evaluators
      (setTradingStrategies [] tradingStates) := ha
  rw [resumeTradingStrategies_eq_filter_map] at ha'
  rcases List.mem_map.mp ha' with ⟨e, _, rfl⟩
  exact ⟨by simp, by simp⟩

/-- Claim C2 is false as stated: a restored trading strategy that was `paused`
(a non-terminal status — the strategy can be resumed) is repopulated into the
in-memory map by the restore path, but its tick loop is not re-armed —
`resumeTradingStrategies` arms loops only for status `running` — so the
restore performs no arming action at all for it, even with every evaluator
registered. -/
theorem restore_paused_not_rearmed :
    pausedDca.status = TrStatus.paused
    ∧ pausedDca.status ≠ TrStatus.done
    ∧ pausedDca.status ≠ TrStatus.failed
    ∧ (allEvaluators pausedDca.type).isSome = true
    ∧ (restoreBoot [] [pausedDca] allEvaluators).2.1 = [(1, pausedDca)]
    ∧ (restoreBoot [] [pausedDca] allEvaluators).2.2 = [] := by
  refine ⟨rfl, by simp [pausedDca], by simp [pausedDca], rfl, rfl, ?_⟩
  rfl
